import Mathlib

/-!
Verification of the Layer core of the go-gerber repository
(`gerber/layers.go`): primitive accumulation (`Add`), aperture
deduplication and stable indexing, Gerber serialization
(`WriteGerber`) and the cached minimum-bounding-box query (`MBB`).

The `Primitive`, `Aperture` and bounding-box collaborators are external
to `layers.go`; they are modelled from the spec's capability contracts,
as marked on each definition.
-/

namespace GoGerber

/-- Modelled from the spec: the minimum-bounding-box value type (`MBB` in
the source lives outside `layers.go`): an axis-aligned box, represented by
its minimal and maximal corner coordinates.  The zero value (all fields 0)
is the degenerate zero-sized origin-anchored box.  Coordinates are modelled
over `Int`. -/
structure MBB where
  minX : Int
  minY : Int
  maxX : Int
  maxY : Int
deriving DecidableEq, Repr

/-- Modelled from the spec: the bounding-box union capability
`join(box, other-box)` — the componentwise min/max union of two
axis-aligned boxes.  In the source `Join` mutates its receiver; here it
returns the updated box. -/
def MBB.join (b v : MBB) : MBB :=
  { minX := min b.minX v.minX
    minY := min b.minY v.minY
    maxX := max b.maxX v.maxX
    maxY := max b.maxY v.maxY }

/-- Modelled from the spec: the Aperture capability contract —
`identity-key(aperture) -> string` (field `ident`, the source's `ID()`)
and `serialize-definition(aperture, sink, select-code)` (field `write`,
giving the strings the aperture writes to the sink for a select code). -/
structure Aperture where
  ident : String
  write : Int → List String

/-- Modelled from the spec: the Primitive capability contract —
`aperture-of(primitive) -> Aperture-or-null` (field `aperture`),
`bounding-box-of(primitive) -> box` (field `mbb`), and
`serialize(primitive, sink, select-code)` (field `write`, giving the
strings the primitive writes to the sink for a select code). -/
structure Primitive where
  aperture : Option Aperture
  mbb : MBB
  write : Int → List String

/-- Modelled from the spec: the identity key a primitive's aperture
reports.  The source calls `p.Aperture().ID()` even for a nil aperture;
`Aperture.ID` (outside `layers.go`) reports the reserved key `"default"`
for a nil receiver, which the spec describes as the sentinel routing for
"no aperture". -/
def apertureID : Option Aperture → String
  | none => "default"
  | some a => a.ident

/-- The `Layer` struct of `layers.go`: filename, primitive sequence,
aperture sequence, the aperture-identity-to-index map, and the cached
minimum bounding box (`nil` until computed).  The map is embedded as an
association list; the back-reference `g` is used by no embedded
operation and is omitted. -/
structure Layer where
  filename : String
  primitives : List Primitive
  apertures : List Aperture
  apertureMap : List (String × Int)
  mbb : Option MBB

/-- The `Gerber` root object, as far as `layers.go` uses it: the shared
filename base and the layer sequence. -/
structure Gerber where
  filenameBase : String
  layers : List Layer

/-- Go map read, first half: `v, ok := m[k]` — the first entry with key
`k`, if any. -/
def mapFind (m : List (String × Int)) (k : String) : Option (String × Int) :=
  m.find? (fun q => q.1 == k)

/-- Go map read, second half: `m[k]` — a missing key yields the zero
value `0`. -/
def mapLookup (m : List (String × Int)) (k : String) : Int :=
  match mapFind m k with
  | some q => q.2
  | none => 0

/-- The loop body of `Layer.Add`: skip a nil aperture, skip an already
registered identity key, otherwise record the key at index
`len(l.Apertures)` (the length before the append) and append the
aperture. -/
def register (l : Layer) (p : Primitive) : Layer :=
  match p.aperture with
  | none => l
  | some a =>
    if (mapFind l.apertureMap a.ident).isSome then l
    else { l with
           apertureMap := l.apertureMap ++ [(a.ident, (l.apertures.length : Int))]
           apertures := l.apertures ++ [a] }

/-- `Layer.Add`: run the registration loop over the arguments, then
append every argument primitive to the primitive sequence. -/
def Layer.add (l : Layer) (ps : List Primitive) : Layer :=
  let l' := ps.foldl register l
  { l' with primitives := l'.primitives ++ ps }

/-- An output sink for `WriteGerber` (the `io.Writer`): the strings
successfully written so far, a fault model (`failFrom = some n` makes the
`n`-th and all later write attempts fail), the number of write attempts,
and whether any attempt has failed. -/
structure Sink where
  written : List String
  failFrom : Option Nat
  count : Nat
  anyFailed : Bool
deriving Repr

/-- A fresh sink on which every write succeeds. -/
def Sink.ok : Sink :=
  { written := [], failFrom := none, count := 0, anyFailed := false }

/-- A fresh sink on which every write fails. -/
def Sink.failing : Sink :=
  { written := [], failFrom := some 0, count := 0, anyFailed := false }

/-- One write attempt against the sink, returning the updated sink and
the error result of this attempt (`io.WriteString` / the collaborators'
writes). -/
def Sink.write (s : Sink) (str : String) : Sink × Option String :=
  match s.failFrom with
  | some n =>
    if n ≤ s.count then
      ({ s with count := s.count + 1, anyFailed := true }, some "write failed")
    else
      ({ s with written := s.written ++ [str], count := s.count + 1 }, none)
  | none => ({ s with written := s.written ++ [str], count := s.count + 1 }, none)

/-- Write a list of strings in order, discarding each attempt's error
result (as `layers.go` does with every write it issues). -/
def writeAll (s : Sink) : List String → Sink
  | [] => s
  | str :: rest => writeAll (s.write str).1 rest

/-- The select code `WriteGerber` computes for a primitive:
`12 + l.apertureMap[p.Aperture().ID()]`. -/
def selectCode (l : Layer) (p : Primitive) : Int :=
  12 + mapLookup l.apertureMap (apertureID p.aperture)

/-- The aperture-definition loop of `WriteGerber`:
`for i, a := range l.Apertures { a.WriteGerber(w, 12+i) }`, with the
running code starting at 12. -/
def writeApertures (s : Sink) (code : Int) : List Aperture → Sink
  | [] => s
  | a :: as => writeApertures (writeAll s (a.write code)) (code + 1) as

/-- The primitive loop of `WriteGerber`: each primitive serializes itself
with its resolved select code. -/
def writePrims (l : Layer) (s : Sink) : List Primitive → Sink
  | [] => s
  | p :: ps => writePrims l (writeAll s (p.write (selectCode l p))) ps

/-- `Layer.WriteGerber`: header directives, the fixed default-aperture
definition, one definition per registered aperture, every primitive's
serialization, the trailer — every write's error result is discarded —
and an unconditional `nil` error return. -/
def Layer.writeGerber (l : Layer) (s : Sink) : Sink × Option String :=
  let s1 := (s.write "%FSLAX36Y36*%\n").1
  let s2 := (s1.write "%MOMM*%\n").1
  let s3 := (s2.write "%LPD*%\n").1
  let s4 := (s3.write "%ADD11C,0.00100*%\n").1
  let s5 := writeApertures s4 12 l.apertures
  let s6 := writePrims l s5 l.primitives
  let s7 := (s6.write "M02*\n").1
  (s7, none)

/-- `Layer.MBB`: return the cached box if present; otherwise seed with
the first primitive's box and join every later primitive's box into it,
cache and return the result; an empty layer logs a diagnostic and caches
the degenerate zero box.  Returns the box, the updated layer, and the
diagnostic lines emitted. -/
def Layer.MBB (l : Layer) : MBB × Layer × List String :=
  match l.mbb with
  | some b => (b, l, [])
  | none =>
    match l.primitives with
    | [] =>
      (MBB.mk 0 0 0 0, { l with mbb := some (MBB.mk 0 0 0 0) },
       ["No primivites on layer " ++ l.filename])
    | p :: ps =>
      let b := ps.foldl (fun acc q => acc.join q.mbb) p.mbb
      (b, { l with mbb := some b }, [])

/-- `Gerber.makeLayer`: a fresh layer named `prefix + "." + extension`
whose registry holds only the `"default"` sentinel at −1, appended to the
design's layer sequence. -/
def Gerber.makeLayer (g : Gerber) (extension : String) : Gerber × Layer :=
  let layer : Layer :=
    { filename := g.filenameBase ++ "." ++ extension
      primitives := []
      apertures := []
      apertureMap := [("default", -1)]
      mbb := none }
  ({ g with layers := g.layers ++ [layer] }, layer)

/-- `Gerber.TopCopper`. -/
def Gerber.topCopper (g : Gerber) : Gerber × Layer := g.makeLayer "gtl"

/-- `Gerber.TopSolderMask`. -/
def Gerber.topSolderMask (g : Gerber) : Gerber × Layer := g.makeLayer "gts"

/-- `Gerber.TopSilkscreen`. -/
def Gerber.topSilkscreen (g : Gerber) : Gerber × Layer := g.makeLayer "gto"

/-- `Gerber.BottomCopper`. -/
def Gerber.bottomCopper (g : Gerber) : Gerber × Layer := g.makeLayer "gbl"

/-- `Gerber.BottomSolderMask`. -/
def Gerber.bottomSolderMask (g : Gerber) : Gerber × Layer := g.makeLayer "gbs"

/-- `Gerber.BottomSilkscreen`. -/
def Gerber.bottomSilkscreen (g : Gerber) : Gerber × Layer := g.makeLayer "gbo"

/-- `Gerber.LayerN`: the numbered internal-copper extension `gl<n>`. -/
def Gerber.layerN (g : Gerber) (n : Int) : Gerber × Layer :=
  g.makeLayer ("gl" ++ toString n)

/-- `Gerber.Drill`. -/
def Gerber.drill (g : Gerber) : Gerber × Layer := g.makeLayer "drl"

/-- `Gerber.Outline`. -/
def Gerber.outline (g : Gerber) : Gerber × Layer := g.makeLayer "gko"

/-! ### Sample data used by witnesses -/

/-- A sample circular aperture with identity key `"A"`. -/
def apA : Aperture :=
  { ident := "A", write := fun code => ["%ADD" ++ toString code ++ "C,0.15000*%\n"] }

/-- A sample rectangular aperture with identity key `"B"`. -/
def apB : Aperture :=
  { ident := "B", write := fun code => ["%ADD" ++ toString code ++ "R,0.20000X0.20000*%\n"] }

/-- A sample aperture whose identity key collides with the reserved
`"default"` registry key. -/
def apClash : Aperture :=
  { ident := "default", write := fun code => ["%ADD" ++ toString code ++ "C,0.30000*%\n"] }

/-- A sample aperture never routed through `Add`. -/
def apX : Aperture :=
  { ident := "X", write := fun code => ["%ADD" ++ toString code ++ "C,0.40000*%\n"] }

/-- A sample primitive using aperture `"A"`. -/
def primA : Primitive :=
  { aperture := some apA
    mbb := MBB.mk 0 0 1 1
    write := fun code => ["D" ++ toString code ++ "*\n", "X0Y0D03*\n"] }

/-- A sample primitive using aperture `"B"`. -/
def primB : Primitive :=
  { aperture := some apB
    mbb := MBB.mk 2 2 3 3
    write := fun code => ["D" ++ toString code ++ "*\n", "X2Y2D03*\n"] }

/-- A sample primitive reporting a nil aperture. -/
def primNil : Primitive :=
  { aperture := none
    mbb := MBB.mk 9 9 10 10
    write := fun code => ["D" ++ toString code ++ "*\n", "X9Y9D03*\n"] }

/-- A sample primitive whose aperture reports the reserved key
`"default"`. -/
def primClash : Primitive :=
  { aperture := some apClash
    mbb := MBB.mk 0 0 0 0
    write := fun code => ["D" ++ toString code ++ "*\n"] }

/-- A sample primitive whose aperture key `"X"` is never registered. -/
def primX : Primitive :=
  { aperture := some apX
    mbb := MBB.mk 5 5 6 6
    write := fun code => ["D" ++ toString code ++ "*\n"] }

/-- A freshly constructed layer (`TopCopper` of a design named `pcb`). -/
def layer0 : Layer := ((Gerber.mk "pcb" []).makeLayer "gtl").2

/-- `layer0` after registering aperture `"A"`. -/
def layer1 : Layer := layer0.add [primA]

/-- `layer0` after registering apertures `"A"` and `"B"`. -/
def layer2 : Layer := layer0.add [primA, primB]

/-! ### Sink lemmas -/

/-- A write attempt never changes the fault model of the sink. -/
theorem Sink.write_failFrom (s : Sink) (str : String) :
    ((s.write str).1).failFrom = s.failFrom := by
  unfold Sink.write
  cases hf : s.failFrom with
  | none => rfl
  | some n =>
    dsimp only
    split <;> rfl

/-- On a fault-free sink a write appends the string to the output. -/
theorem Sink.write_written (s : Sink) (str : String) (h : s.failFrom = none) :
    ((s.write str).1).written = s.written ++ [str] := by
  simp [Sink.write, h]

/-- `writeAll` never changes the fault model of the sink. -/
theorem writeAll_failFrom (strs : List String) (s : Sink) :
    (writeAll s strs).failFrom = s.failFrom := by
  induction strs generalizing s with
  | nil => rfl
  | cons a as ih => rw [writeAll, ih]; exact Sink.write_failFrom s a

/-- On a fault-free sink `writeAll` appends all its strings. -/
theorem writeAll_written (strs : List String) (s : Sink) (h : s.failFrom = none) :
    (writeAll s strs).written = s.written ++ strs := by
  induction strs generalizing s with
  | nil => simp [writeAll]
  | cons a as ih =>
    rw [writeAll, ih _ (by rw [Sink.write_failFrom]; exact h)]
    rw [Sink.write_written s a h]
    simp

/-- The strings the aperture-definition loop of `WriteGerber` writes,
starting from a given select code: each aperture's own definition at the
running code. -/
def defLines (code : Int) : List Aperture → List String
  | [] => []
  | a :: as => a.write code ++ defLines (code + 1) as

/-- The strings the primitive loop of `WriteGerber` writes: each
primitive's own serialization at its resolved select code. -/
def primLines (l : Layer) : List Primitive → List String
  | [] => []
  | p :: ps => p.write (selectCode l p) ++ primLines l ps

/-- The aperture loop never changes the fault model of the sink. -/
theorem writeApertures_failFrom (as : List Aperture) (code : Int) (s : Sink) :
    (writeApertures s code as).failFrom = s.failFrom := by
  induction as generalizing code s with
  | nil => rfl
  | cons a as ih => rw [writeApertures, ih]; exact writeAll_failFrom _ s

/-- The primitive loop never changes the fault model of the sink. -/
theorem writePrims_failFrom (l : Layer) (ps : List Primitive) (s : Sink) :
    (writePrims l s ps).failFrom = s.failFrom := by
  induction ps generalizing s with
  | nil => rfl
  | cons p ps ih => rw [writePrims, ih]; exact writeAll_failFrom _ s

/-- On a fault-free sink the aperture loop writes exactly `defLines`. -/
theorem writeApertures_written (as : List Aperture) (code : Int) (s : Sink)
    (h : s.failFrom = none) :
    (writeApertures s code as).written = s.written ++ defLines code as := by
  induction as generalizing code s with
  | nil => simp [writeApertures, defLines]
  | cons a as ih =>
    rw [writeApertures, ih _ _ (by rw [writeAll_failFrom]; exact h)]
    rw [writeAll_written _ s h]
    simp [defLines]

/-- On a fault-free sink the primitive loop writes exactly
`primLines`. -/
theorem writePrims_written (l : Layer) (ps : List Primitive) (s : Sink)
    (h : s.failFrom = none) :
    (writePrims l s ps).written = s.written ++ primLines l ps := by
  induction ps generalizing s with
  | nil => simp [writePrims, primLines]
  | cons p ps ih =>
    rw [writePrims, ih _ (by rw [writeAll_failFrom]; exact h)]
    rw [writeAll_written _ s h]
    simp [primLines]

/-- On a fault-free sink `WriteGerber` appends the headers, the default
aperture line, the aperture definitions, the primitive serializations
and the trailer, in that order. -/
theorem writeGerber_written (l : Layer) (s : Sink) (h : s.failFrom = none) :
    (l.writeGerber s).1.written
      = s.written
        ++ ["%FSLAX36Y36*%\n", "%MOMM*%\n", "%LPD*%\n", "%ADD11C,0.00100*%\n"]
        ++ defLines 12 l.apertures
        ++ primLines l l.primitives
        ++ ["M02*\n"] := by
  rw [Layer.writeGerber]
  set s1 := (s.write "%FSLAX36Y36*%\n").1 with hs1
  have h1 : s1.failFrom = none := by rw [hs1, Sink.write_failFrom]; exact h
  set s2 := (s1.write "%MOMM*%\n").1 with hs2
  have h2 : s2.failFrom = none := by rw [hs2, Sink.write_failFrom]; exact h1
  set s3 := (s2.write "%LPD*%\n").1 with hs3
  have h3 : s3.failFrom = none := by rw [hs3, Sink.write_failFrom]; exact h2
  set s4 := (s3.write "%ADD11C,0.00100*%\n").1 with hs4
  have h4 : s4.failFrom = none := by rw [hs4, Sink.write_failFrom]; exact h3
  set s5 := writeApertures s4 12 l.apertures with hs5
  have h5 : s5.failFrom = none := by rw [hs5, writeApertures_failFrom]; exact h4
  set s6 := writePrims l s5 l.primitives with hs6
  have h6 : s6.failFrom = none := by rw [hs6, writePrims_failFrom]; exact h5
  show ((s6.write "M02*\n").1).written = _
  rw [Sink.write_written s6 _ h6]
  rw [hs6, writePrims_written l _ s5 h5]
  rw [hs5, writeApertures_written l.apertures 12 s4 h4]
  rw [hs4, Sink.write_written s3 _ h3]
  rw [hs3, Sink.write_written s2 _ h2]
  rw [hs2, Sink.write_written s1 _ h1]
  rw [hs1, Sink.write_written s _ h]
  simp [List.append_assoc]

/-- `defLines` starting at code `12 + n` enumerates the apertures from
index `n`, serializing the aperture at enumerated index `i` with select
code `12 + i`. -/
theorem defLines_eq_enumFrom (as : List Aperture) (n : Nat) :
    defLines (12 + (n : Int)) as
      = (List.enumFrom n as).flatMap (fun ia => ia.2.write (12 + (ia.1 : Int))) := by
  induction as generalizing n with
  | nil => simp [defLines]
  | cons a as ih =>
    have hcast : (12 : Int) + (n : Int) + 1 = 12 + ((n + 1 : Nat) : Int) := by
      push_cast
      ring
    rw [defLines, hcast, ih (n + 1)]
    simp [List.enumFrom]

/-- `primLines` is the concatenation of each primitive's serialization
at its resolved select code. -/
theorem primLines_eq_flatMap (l : Layer) (ps : List Primitive) :
    primLines l ps = ps.flatMap (fun p => p.write (selectCode l p)) := by
  induction ps with
  | nil => simp [primLines]
  | cons p ps ih => rw [primLines, ih]; simp

/-- C1: `WriteGerber` emits, in order, exactly the three header
directives `%FSLAX36Y36*%`, `%MOMM*%`, `%LPD*%` (one per line, each
terminated by a line feed), then the fixed default-aperture line
`%ADD11C,0.00100*%`, then one definition per registered aperture in
registry order with select code `12 + index` (index 0 maps to D12),
then each primitive's serialization in insertion order (at its resolved
select code), then the single trailer line `M02*`. -/
theorem writeGerber_output_contract (l : Layer) :
    (l.writeGerber Sink.ok).1.written
      = ["%FSLAX36Y36*%\n", "%MOMM*%\n", "%LPD*%\n"]
        ++ ["%ADD11C,0.00100*%\n"]
        ++ l.apertures.enum.flatMap (fun ia => ia.2.write (12 + (ia.1 : Int)))
        ++ l.primitives.flatMap (fun p => p.write (selectCode l p))
        ++ ["M02*\n"] := by
  have he : l.apertures.enum.flatMap (fun ia => ia.2.write (12 + (ia.1 : Int)))
      = defLines 12 l.apertures := by
    have := defLines_eq_enumFrom l.apertures 0
    simpa [List.enum] using this.symm
  rw [writeGerber_written l Sink.ok rfl, he, ← primLines_eq_flatMap]
  simp [Sink.ok, List.append_assoc]

/-- C4 (amended): `WriteGerber` discards the error result of every sink
write it issues and unconditionally returns a `nil` error, whether or
not any sink write failed. -/
theorem writeGerber_error_always_none (l : Layer) (s : Sink) :
    (l.writeGerber s).2 = none := rfl

/-- C4 (counterexample): on a sink whose every write fails, running
`WriteGerber` on a concrete layer records sink failures, yet the error
return is still `none` — so `WriteGerber` does not propagate sink write
failures and does not "return success only when no sink write
failed". -/
theorem writeGerber_swallows_failure_cex :
    ((layer0.add [primA, primNil]).writeGerber Sink.failing).1.anyFailed = true
    ∧ ((layer0.add [primA, primNil]).writeGerber Sink.failing).2 = none := by
  exact ⟨by decide, rfl⟩

/-- C2: a primitive reporting a nil aperture resolves its select code
through the registry's reserved `"default"` → −1 sentinel entry, so
`12 + (−1) = 11`: it is serialized with the default code D11, whatever
else is registered. -/
theorem nil_aperture_default_code (l : Layer) (p : Primitive)
    (hp : p.aperture = none)
    (hd : mapFind l.apertureMap "default" = some ("default", -1)) :
    selectCode l p = 11 := by
  rw [selectCode, hp]
  show (12 : Int) + mapLookup l.apertureMap "default" = 11
  rw [mapLookup, hd]
  decide

/-- C2 witness: on a concrete layer with two real registered apertures,
the nil-aperture primitive resolves to select code 11. -/
theorem nil_aperture_default_code_w : selectCode layer2 primNil = 11 :=
  nil_aperture_default_code layer2 primNil rfl (by decide)

/-- C10: a primitive whose non-nil aperture's identity key was never
registered resolves through the Go map's total read to the zero value
0, so `WriteGerber` serializes it with select code 12 — the code of the
first registered aperture — with no error. -/
theorem missing_key_zero_value_code12 (l : Layer) (p : Primitive) (a : Aperture)
    (hp : p.aperture = some a)
    (h : mapFind l.apertureMap a.ident = none) :
    mapLookup l.apertureMap (apertureID p.aperture) = 0 ∧ selectCode l p = 12 := by
  have h1 : apertureID p.aperture = a.ident := by rw [hp]; rfl
  have h2 : mapLookup l.apertureMap (apertureID p.aperture) = 0 := by
    rw [h1, mapLookup, h]
  exact ⟨h2, by rw [selectCode, h2]; decide⟩

/-- C10 witness: on a fresh layer, the unregistered key `"X"` resolves
to the zero value and select code 12. -/
theorem missing_key_zero_value_code12_w :
    mapLookup layer0.apertureMap (apertureID primX.aperture) = 0
    ∧ selectCode layer0 primX = 12 :=
  missing_key_zero_value_code12 layer0 primX apX rfl (by decide)

/-! ### Registration leaves the other fields alone -/

/-- The registration loop body never touches the bounding-box cache. -/
theorem register_mbb (l : Layer) (p : Primitive) :
    (register l p).mbb = l.mbb := by
  unfold register
  cases p.aperture with
  | none => rfl
  | some a =>
    dsimp only
    split <;> rfl

/-- The registration loop body never touches the primitive sequence. -/
theorem register_primitives (l : Layer) (p : Primitive) :
    (register l p).primitives = l.primitives := by
  unfold register
  cases p.aperture with
  | none => rfl
  | some a =>
    dsimp only
    split <;> rfl

/-- The whole registration loop never touches the bounding-box cache. -/
theorem foldl_register_mbb (ps : List Primitive) (l : Layer) :
    (ps.foldl register l).mbb = l.mbb := by
  induction ps generalizing l with
  | nil => rfl
  | cons p ps ih => rw [List.foldl_cons, ih]; exact register_mbb l p

/-- The whole registration loop never touches the primitive sequence. -/
theorem foldl_register_primitives (ps : List Primitive) (l : Layer) :
    (ps.foldl register l).primitives = l.primitives := by
  induction ps generalizing l with
  | nil => rfl
  | cons p ps ih => rw [List.foldl_cons, ih]; exact register_primitives l p

/-- `Add` never touches the bounding-box cache field. -/
theorem add_mbb (l : Layer) (ps : List Primitive) :
    (l.add ps).mbb = l.mbb := by
  show (ps.foldl register l).mbb = l.mbb
  exact foldl_register_mbb ps l

/-! ### MBB cache behaviour -/

/-- A cached box is returned unchanged, with no recomputation and no
diagnostic. -/
theorem MBB_of_cached (l : Layer) (b : MBB) (h : l.mbb = some b) :
    l.MBB = (b, l, []) := by
  rw [Layer.MBB, h]

/-- The first `MBB` call leaves the returned box in the cache field. -/
theorem MBB_sets_cache (l : Layer) :
    (l.MBB).2.1.mbb = some (l.MBB).1 := by
  rw [Layer.MBB]
  cases hm : l.mbb with
  | some b => exact hm
  | none =>
    cases hp : l.primitives with
    | nil => rfl
    | cons p ps => rfl

/-- C5: after a first `MBB()` call has populated the cache, a later
`MBB()` call returns the cached value unchanged even if `Add` was
called in between — `Add` never clears or updates the cache field. -/
theorem mbb_cache_stale_after_add (l : Layer) (ps : List Primitive) :
    (((l.MBB).2.1.add ps).mbb = some (l.MBB).1)
    ∧ ((((l.MBB).2.1.add ps).MBB).1 = (l.MBB).1) := by
  have hc : ((l.MBB).2.1.add ps).mbb = some (l.MBB).1 := by
    rw [add_mbb]
    exact MBB_sets_cache l
  exact ⟨hc, by rw [MBB_of_cached _ _ hc]⟩

/-- C8: on a layer with no cache, `MBB()` of zero primitives emits a
diagnostic, caches and returns the degenerate zero-sized origin box;
otherwise it seeds the accumulator with the first primitive's box and
joins each later primitive's box in order (with no diagnostic). -/
theorem mbb_empty_degenerate_and_fold (l : Layer) (h : l.mbb = none) :
    (l.primitives = [] →
      l.MBB = (MBB.mk 0 0 0 0, { l with mbb := some (MBB.mk 0 0 0 0) },
               ["No primivites on layer " ++ l.filename]))
    ∧ (∀ p ps, l.primitives = p :: ps →
        (l.MBB).1 = ps.foldl (fun acc q => acc.join q.mbb) p.mbb
        ∧ (l.MBB).2.2 = []) := by
  constructor
  · intro he
    rw [Layer.MBB, h, he]
  · intro p ps hps
    rw [Layer.MBB, h, hps]
    exact ⟨rfl, rfl⟩

/-- C8 witness: on the fresh empty layer, `MBB()` returns the
degenerate zero box, caches it, and emits the diagnostic line. -/
theorem mbb_empty_degenerate_and_fold_w :
    layer0.MBB = (MBB.mk 0 0 0 0, { layer0 with mbb := some (MBB.mk 0 0 0 0) },
                  ["No primivites on layer " ++ layer0.filename]) :=
  (mbb_empty_degenerate_and_fold layer0 rfl).1 rfl

/-- C7: every `Add` call appends all of its argument primitives —
including nil-aperture ones — in argument order, and a sequence of
`Add` calls preserves the interleaving order across calls; `Add` is a
total function with no failure outcome. -/
theorem add_appends_primitives (l : Layer) (ps : List Primitive)
    (cs : List (List Primitive)) :
    ((l.add ps).primitives = l.primitives ++ ps)
    ∧ ((cs.foldl Layer.add l).primitives = l.primitives ++ cs.flatten) := by
  have h1 : ∀ (m : Layer) (qs : List Primitive),
      (m.add qs).primitives = m.primitives ++ qs := by
    intro m qs
    show (qs.foldl register m).primitives ++ qs = m.primitives ++ qs
    rw [foldl_register_primitives]
  refine ⟨h1 l ps, ?_⟩
  induction cs generalizing l with
  | nil => simp
  | cons c cs ih =>
    rw [List.foldl_cons, ih (l.add c), h1 l c]
    simp

/-- C9: every layer-kind factory call builds a layer named
`<design filename base>.<extension>`, appends it to the parent's layer
sequence, and initializes its registry to exactly the `"default"` → −1
sentinel; no duplicate-extension validation exists, so a second call
with the same extension appends a second layer with an identical
filename; each named factory is `makeLayer` at its fixed extension
token. -/
theorem makeLayer_contract (g : Gerber) (extension : String) :
    ((g.makeLayer extension).2.filename = g.filenameBase ++ "." ++ extension)
    ∧ ((g.makeLayer extension).1.layers = g.layers ++ [(g.makeLayer extension).2])
    ∧ ((g.makeLayer extension).2.apertureMap = [("default", -1)])
    ∧ ((g.makeLayer extension).2.primitives = []
       ∧ (g.makeLayer extension).2.apertures = []
       ∧ (g.makeLayer extension).2.mbb = none)
    ∧ (((g.makeLayer extension).1.makeLayer extension).1.layers
        = g.layers ++ [(g.makeLayer extension).2,
                       ((g.makeLayer extension).1.makeLayer extension).2]
       ∧ ((g.makeLayer extension).1.makeLayer extension).2.filename
          = (g.makeLayer extension).2.filename)
    ∧ (g.topCopper = g.makeLayer "gtl"
       ∧ g.topSolderMask = g.makeLayer "gts"
       ∧ g.topSilkscreen = g.makeLayer "gto"
       ∧ g.bottomCopper = g.makeLayer "gbl"
       ∧ g.bottomSolderMask = g.makeLayer "gbs"
       ∧ g.bottomSilkscreen = g.makeLayer "gbo"
       ∧ g.drill = g.makeLayer "drl"
       ∧ g.outline = g.makeLayer "gko"
       ∧ ∀ n : Int, g.layerN n = g.makeLayer ("gl" ++ toString n)) := by
  refine ⟨rfl, rfl, rfl, ⟨rfl, rfl, rfl⟩, ⟨?_, rfl⟩,
          rfl, rfl, rfl, rfl, rfl, rfl, rfl, rfl, fun n => rfl⟩
  show (g.layers ++ [(g.makeLayer extension).2]) ++ [_] = _
  simp [Gerber.makeLayer]

/-! ### Registry map lemmas -/

/-- Unfolding a map read over a cons cell. -/
theorem mapFind_cons (q : String × Int) (m : List (String × Int)) (k : String) :
    mapFind (q :: m) k = if q.1 == k then some q else mapFind m k := by
  rw [mapFind, List.find?_cons]
  cases hq : (q.1 == k) <;> simp [hq, mapFind]

/-- An entry found in the front part of a map is still found after any
entries are appended behind it. -/
theorem mapFind_append_left (m m2 : List (String × Int)) (k : String)
    (v : String × Int) (h : mapFind m k = some v) :
    mapFind (m ++ m2) k = some v := by
  rw [mapFind] at h ⊢
  rw [List.find?_append, h]
  rfl

/-- Appending a single entry: the key is found afterwards iff it was
found before or is the appended key. -/
theorem mapFind_append_single_isSome (m : List (String × Int)) (k k' : String)
    (v : Int) :
    (mapFind (m ++ [(k', v)]) k).isSome
      ↔ ((mapFind m k).isSome ∨ k = k') := by
  rw [mapFind, mapFind, List.find?_append]
  cases hm : List.find? (fun q => q.1 == k) m with
  | some q => simp [Option.or]
  | none =>
    simp only [Option.or]
    cases hq : (k' == k) with
    | true =>
      have : k' = k := eq_of_beq hq
      subst this
      simp [List.find?_cons]
    | false =>
      have : ¬ k = k' := fun he => by simp [he] at hq
      simp [List.find?_cons, hq, this]

/-- A registration step preserves every existing map entry: the loop
body either leaves the map alone or appends a fresh entry behind it. -/
theorem mapFind_register (l : Layer) (p : Primitive) (k : String)
    (v : String × Int) (h : mapFind l.apertureMap k = some v) :
    mapFind (register l p).apertureMap k = some v := by
  unfold register
  cases p.aperture with
  | none => exact h
  | some a =>
    dsimp only
    split
    · exact h
    · exact mapFind_append_left _ _ _ _ h

/-- The whole registration loop preserves every existing map entry. -/
theorem mapFind_foldl_register (ps : List Primitive) (l : Layer) (k : String)
    (v : String × Int) (h : mapFind l.apertureMap k = some v) :
    mapFind ((ps.foldl register l).apertureMap) k = some v := by
  induction ps generalizing l with
  | nil => exact h
  | cons p ps ih => exact ih (register l p) (mapFind_register l p k v h)

/-- C6: once an aperture is registered, its map entry — hence its
resolved select code `12 + index` — never changes across later `Add`
calls; and a registration of a new key appends the aperture and records
the index `len(apertures)` taken before the append, i.e. the position
the aperture will occupy. -/
theorem aperture_index_stable (l : Layer) (ps : List Primitive) :
    (∀ k v, mapFind l.apertureMap k = some v →
      mapFind (l.add ps).apertureMap k = some v)
    ∧ (∀ p a, p.aperture = some a → (mapFind l.apertureMap a.ident).isSome →
        selectCode (l.add ps) p = selectCode l p)
    ∧ (∀ p a, p.aperture = some a → mapFind l.apertureMap a.ident = none →
        (register l p).apertureMap
          = l.apertureMap ++ [(a.ident, (l.apertures.length : Int))]
        ∧ (register l p).apertures = l.apertures ++ [a]) := by
  have hmap : ∀ k v, mapFind l.apertureMap k = some v →
      mapFind (l.add ps).apertureMap k = some v := by
    intro k v h
    show mapFind ((ps.foldl register l).apertureMap) k = some v
    exact mapFind_foldl_register ps l k v h
  refine ⟨hmap, ?_, ?_⟩
  · intro p a hp hs
    obtain ⟨v, hv⟩ := Option.isSome_iff_exists.1 hs
    have h1 : apertureID p.aperture = a.ident := by rw [hp]; rfl
    rw [selectCode, selectCode, h1, mapLookup, mapLookup, hv, hmap a.ident v hv]
  · intro p a hp hnone
    rw [register, hp]
    dsimp only
    rw [if_neg (by rw [hnone]; simp)]
    exact ⟨rfl, rfl⟩

/-- C6 witness: key `"A"` is registered at index 0 in `layer1`; after a
further `Add` registering `"B"` its entry is unchanged. -/
theorem aperture_index_stable_w :
    mapFind ((layer1.add [primB]).apertureMap) "A" = some ("A", 0) :=
  (aperture_index_stable layer1 [primB]).1 "A" ("A", 0) (by decide)

/-! ### Deduplication of apertures -/

/-- The identity keys reported by the non-nil apertures of a primitive
list, in order. -/
def primKeys (ps : List Primitive) : List String :=
  ps.filterMap (fun p => p.aperture.map Aperture.ident)

/-- First-occurrence deduplication of a key list relative to a set of
already-seen keys: keys already seen are dropped, new keys are kept once,
in first-seen order. -/
def foldKeys (seen : List String) : List String → List String
  | [] => []
  | k :: ks => if k ∈ seen then foldKeys seen ks else k :: foldKeys (k :: seen) ks

/-- First-occurrence deduplication of a key list. -/
def firstSeen (ks : List String) : List String := foldKeys [] ks

/-- The registry invariant: a key is in the map exactly when it is the
reserved `"default"` key or the key of a registered aperture. -/
def RegInv (l : Layer) : Prop :=
  ∀ k, (mapFind l.apertureMap k).isSome
        ↔ (k = "default" ∨ k ∈ l.apertures.map Aperture.ident)

/-- `foldKeys` only depends on the membership semantics of the seen
set. -/
theorem foldKeys_congr (s₁ s₂ : List String) (ks : List String)
    (h : ∀ x, x ∈ s₁ ↔ x ∈ s₂) : foldKeys s₁ ks = foldKeys s₂ ks := by
  induction ks generalizing s₁ s₂ with
  | nil => rfl
  | cons k ks ih =>
    rw [foldKeys, foldKeys]
    by_cases hk : k ∈ s₁
    · rw [if_pos hk, if_pos ((h k).1 hk)]
      exact ih s₁ s₂ h
    · rw [if_neg hk, if_neg (fun hc => hk ((h k).2 hc))]
      congr 1
      refine ih _ _ (fun x => ?_)
      simp only [List.mem_cons]
      rw [h x]

/-- Membership in a `foldKeys` result: exactly the listed keys that were
not already seen. -/
theorem foldKeys_mem (ks : List String) (seen : List String) (x : String) :
    x ∈ foldKeys seen ks ↔ (x ∈ ks ∧ x ∉ seen) := by
  induction ks generalizing seen with
  | nil => simp [foldKeys]
  | cons k ks ih =>
    rw [foldKeys]
    by_cases hk : k ∈ seen
    · rw [if_pos hk, ih]
      constructor
      · rintro ⟨hx1, hx2⟩
        exact ⟨List.mem_cons_of_mem _ hx1, hx2⟩
      · rintro ⟨hx1, hx2⟩
        rcases List.mem_cons.1 hx1 with he | hx1'
        · exact absurd (he ▸ hk) hx2
        · exact ⟨hx1', hx2⟩
    · rw [if_neg hk]
      simp only [List.mem_cons, ih]
      constructor
      · rintro (he | ⟨hx1, hx2⟩)
        · exact ⟨Or.inl he, he ▸ hk⟩
        · exact ⟨Or.inr hx1, fun hs => hx2 (Or.inr hs)⟩
      · rintro ⟨he | hx1, hx2⟩
        · exact Or.inl he
        · by_cases hxk : x = k
          · exact Or.inl hxk
          · refine Or.inr ⟨hx1, fun hc => ?_⟩
            rcases hc with h' | h'
            · exact hxk h'
            · exact hx2 h'

/-- A `foldKeys` result has no duplicates. -/
theorem foldKeys_nodup (ks : List String) (seen : List String) :
    (foldKeys seen ks).Nodup := by
  induction ks generalizing seen with
  | nil => simp [foldKeys]
  | cons k ks ih =>
    rw [foldKeys]
    by_cases hk : k ∈ seen
    · rw [if_pos hk]
      exact ih seen
    · rw [if_neg hk]
      refine List.nodup_cons.2 ⟨fun hc => ?_, ih (k :: seen)⟩
      exact ((foldKeys_mem ks (k :: seen) k).1 hc).2 (List.mem_cons_self k seen)

/-- A seen key that never occurs in the key list does not influence
`foldKeys`. -/
theorem foldKeys_cons_irrelevant (k₀ : String) (ks : List String) :
    ∀ seen, k₀ ∉ ks → foldKeys (k₀ :: seen) ks = foldKeys seen ks := by
  induction ks with
  | nil => intro seen _; rfl
  | cons k ks ih =>
    intro seen h
    have hk0 : k ≠ k₀ := fun he => h (List.mem_cons.2 (Or.inl he.symm))
    have hnotks : k₀ ∉ ks := fun hc => h (List.mem_cons_of_mem _ hc)
    rw [foldKeys, foldKeys]
    by_cases hk : k ∈ seen
    · rw [if_pos (List.mem_cons_of_mem _ hk), if_pos hk]
      exact ih seen hnotks
    · have hnot : k ∉ k₀ :: seen := by
        intro hc
        rcases List.mem_cons.1 hc with h' | h'
        · exact hk0 h'
        · exact hk h'
      rw [if_neg hnot, if_neg hk]
      congr 1
      rw [foldKeys_congr (k :: k₀ :: seen) (k₀ :: k :: seen) ks
            (by intro x; simp only [List.mem_cons]; tauto)]
      exact ih (k :: seen) hnotks

/-- The registry invariant holds for a freshly constructed layer. -/
theorem regInv_fresh (l : Layer) (h1 : l.apertureMap = [("default", -1)])
    (h2 : l.apertures = []) : RegInv l := by
  intro k
  rw [h1, h2, mapFind_cons]
  cases hq : (("default", (-1 : Int)).1 == k) with
  | true =>
    have he : "default" = k := eq_of_beq hq
    simp [← he]
  | false =>
    have he : ¬ k = "default" := fun hc => by simp [hc] at hq
    simp [mapFind, he]

/-- Running the registration loop over a primitive list: the aperture
key sequence grows by exactly the first occurrence of each not yet
registered key (the reserved `"default"` key counting as registered),
and the registry invariant is preserved. -/
theorem foldl_register_ids (ps : List Primitive) (l : Layer) (hInv : RegInv l) :
    ((ps.foldl register l).apertures.map Aperture.ident
      = l.apertures.map Aperture.ident
        ++ foldKeys ("default" :: l.apertures.map Aperture.ident) (primKeys ps))
    ∧ RegInv (ps.foldl register l) := by
  induction ps generalizing l with
  | nil => exact ⟨by simp [primKeys, foldKeys], hInv⟩
  | cons p ps ih =>
    rw [List.foldl_cons]
    cases hp : p.aperture with
    | none =>
      have hr : register l p = l := by rw [register, hp]
      have hk : primKeys (p :: ps) = primKeys ps := by simp [primKeys, hp]
      rw [hr, hk]
      exact ih l hInv
    | some a =>
      have hk : primKeys (p :: ps) = a.ident :: primKeys ps := by
        simp [primKeys, hp]
      by_cases hs : (mapFind l.apertureMap a.ident).isSome = true
      · have hr : register l p = l := by
          rw [register, hp]
          dsimp only
          rw [if_pos hs]
        have hmem : a.ident ∈ "default" :: l.apertures.map Aperture.ident := by
          rcases (hInv a.ident).1 hs with h | h
          · exact List.mem_cons.2 (Or.inl h)
          · exact List.mem_cons_of_mem _ h
        obtain ⟨ih1, ih2⟩ := ih l hInv
        rw [hr, hk]
        refine ⟨?_, ih2⟩
        rw [ih1, foldKeys, if_pos hmem]
      · have hnone : mapFind l.apertureMap a.ident = none :=
          Option.not_isSome_iff_eq_none.1 (by simpa using hs)
        have hr : register l p
            = { l with
                apertureMap := l.apertureMap ++ [(a.ident, (l.apertures.length : Int))]
                apertures := l.apertures ++ [a] } := by
          rw [register, hp]
          dsimp only
          rw [if_neg hs]
        have hInv' : RegInv { l with
            apertureMap := l.apertureMap ++ [(a.ident, (l.apertures.length : Int))]
            apertures := l.apertures ++ [a] } := by
          intro k
          show (mapFind (l.apertureMap ++ [(a.ident, (l.apertures.length : Int))]) k).isSome
              ↔ (k = "default" ∨ k ∈ (l.apertures ++ [a]).map Aperture.ident)
          rw [mapFind_append_single_isSome, hInv k]
          simp only [List.map_append, List.mem_append, List.map_cons, List.map_nil,
            List.mem_singleton]
          tauto
        obtain ⟨ih1, ih2⟩ := ih _ hInv'
        rw [hr]
        refine ⟨?_, ih2⟩
        rw [ih1, hk]
        have hnotmem : a.ident ∉ "default" :: l.apertures.map Aperture.ident := by
          intro hc
          exact hs ((hInv a.ident).2 (List.mem_cons.1 hc))
        rw [foldKeys, if_neg hnotmem]
        show (l.apertures ++ [a]).map Aperture.ident
            ++ foldKeys ("default" :: (l.apertures ++ [a]).map Aperture.ident)
                 (primKeys ps) = _
        rw [foldKeys_congr ("default" :: (l.apertures ++ [a]).map Aperture.ident)
              (a.ident :: "default" :: l.apertures.map Aperture.ident) (primKeys ps)
              (by
                intro x
                simp only [List.map_append, List.mem_cons, List.mem_append,
                  List.map_cons, List.map_nil, List.mem_singleton]
                tauto)]
        simp [List.append_assoc]

/-- The registration loop body commutes with overwriting the primitive
sequence: it reads and writes only the registry fields. -/
theorem register_set_primitives (l : Layer) (q : List Primitive) (p : Primitive) :
    register { l with primitives := q } p = { register l p with primitives := q } := by
  cases hp : p.aperture with
  | none => simp [register, hp]
  | some a =>
    by_cases hs : (mapFind l.apertureMap a.ident).isSome
    · simp [register, hp, hs]
    · simp [register, hp, hs]

/-- The whole registration loop commutes with overwriting the primitive
sequence. -/
theorem foldl_register_set_primitives (ps : List Primitive) (l : Layer)
    (q : List Primitive) :
    ps.foldl register { l with primitives := q }
      = { ps.foldl register l with primitives := q } := by
  induction ps generalizing l with
  | nil => rfl
  | cons p ps ih =>
    rw [List.foldl_cons, List.foldl_cons, register_set_primitives, ih]

/-- A sequence of `Add` calls has the same effect on the registry fields
as one registration pass over the concatenated primitives. -/
theorem foldl_add_registry (cs : List (List Primitive)) (l : Layer) :
    ((cs.foldl Layer.add l).apertures = (cs.flatten.foldl register l).apertures)
    ∧ ((cs.foldl Layer.add l).apertureMap
        = (cs.flatten.foldl register l).apertureMap) := by
  induction cs generalizing l with
  | nil => exact ⟨rfl, rfl⟩
  | cons c cs ih =>
    rw [List.foldl_cons, List.flatten_cons, List.foldl_append]
    have hadd : l.add c
        = { c.foldl register l with
            primitives := (c.foldl register l).primitives ++ c } := rfl
    obtain ⟨i1, i2⟩ := ih (l.add c)
    constructor
    · rw [i1, hadd, foldl_register_set_primitives]
    · rw [i2, hadd, foldl_register_set_primitives]

/-- C3 (amended): starting from a freshly constructed layer, any
sequence of `Add` calls whose non-nil apertures report keys distinct
from the reserved `"default"` key leaves the aperture sequence holding
exactly one entry per distinct reported key, in first-seen order, with
no duplicate keys; and an `Add` of a primitive whose key is already
registered performs no registry mutation. -/
theorem add_dedups_apertures (l₀ : Layer) (cs : List (List Primitive))
    (h1 : l₀.apertureMap = [("default", -1)])
    (h2 : l₀.apertures = [])
    (hd : "default" ∉ primKeys cs.flatten) :
    ((cs.foldl Layer.add l₀).apertures.map Aperture.ident
       = firstSeen (primKeys cs.flatten))
    ∧ ((cs.foldl Layer.add l₀).apertures.map Aperture.ident).Nodup
    ∧ (∀ k, k ∈ (cs.foldl Layer.add l₀).apertures.map Aperture.ident
          ↔ k ∈ primKeys cs.flatten)
    ∧ ((cs.foldl Layer.add l₀).apertures.length
        = (primKeys cs.flatten).toFinset.card)
    ∧ (∀ p a, p.aperture = some a
        → a.ident ∈ (cs.foldl Layer.add l₀).apertures.map Aperture.ident
        → ((cs.foldl Layer.add l₀).add [p]).apertures
              = (cs.foldl Layer.add l₀).apertures
          ∧ ((cs.foldl Layer.add l₀).add [p]).apertureMap
              = (cs.foldl Layer.add l₀).apertureMap) := by
  have hbase : RegInv l₀ := regInv_fresh l₀ h1 h2
  obtain ⟨hids, hinv⟩ := foldl_register_ids cs.flatten l₀ hbase
  obtain ⟨ha, hm⟩ := foldl_add_registry cs l₀
  have hidsL : (cs.foldl Layer.add l₀).apertures.map Aperture.ident
      = firstSeen (primKeys cs.flatten) := by
    rw [ha, hids, h2]
    simp only [List.map_nil, List.nil_append]
    rw [firstSeen]
    exact foldKeys_cons_irrelevant "default" (primKeys cs.flatten) [] hd
  have hinvL : RegInv (cs.foldl Layer.add l₀) := by
    intro k
    show (mapFind (cs.foldl Layer.add l₀).apertureMap k).isSome ↔ _
    rw [hm, ha]
    exact hinv k
  have hmem : ∀ k, k ∈ (cs.foldl Layer.add l₀).apertures.map Aperture.ident
      ↔ k ∈ primKeys cs.flatten := by
    intro k
    rw [hidsL, firstSeen, foldKeys_mem]
    simp
  have hnd : ((cs.foldl Layer.add l₀).apertures.map Aperture.ident).Nodup := by
    rw [hidsL, firstSeen]
    exact foldKeys_nodup _ _
  refine ⟨hidsL, hnd, hmem, ?_, ?_⟩
  · have e1 : (cs.foldl Layer.add l₀).apertures.length
        = ((cs.foldl Layer.add l₀).apertures.map Aperture.ident).length :=
      (List.length_map _ _).symm
    rw [e1, ← List.toFinset_card_of_nodup hnd]
    congr 1
    refine Finset.ext (fun k => ?_)
    simp only [List.mem_toFinset]
    exact hmem k
  · intro p a hp hmemid
    have hsome : (mapFind (cs.foldl Layer.add l₀).apertureMap a.ident).isSome :=
      (hinvL a.ident).2 (Or.inr hmemid)
    have hr : register (cs.foldl Layer.add l₀) p = cs.foldl Layer.add l₀ := by
      rw [register, hp]
      dsimp only
      rw [if_pos hsome]
    constructor
    · show (register (cs.foldl Layer.add l₀) p).apertures = _
      rw [hr]
    · show (register (cs.foldl Layer.add l₀) p).apertureMap = _
      rw [hr]

/-- C3 (counterexample): a single `Add` of one primitive whose aperture
reports the reserved identity key `"default"` supplies one distinct
non-nil key, yet the aperture sequence gains no entry — the key
collides with the sentinel already in the registry map — refuting the
claim that N primitives with K distinct keys always yield exactly K
entries. -/
theorem add_dedups_apertures_cex :
    primKeys [primClash] = ["default"]
    ∧ (primKeys [primClash]).toFinset.card = 1
    ∧ (layer0.add [primClash]).apertures.length = 0
    ∧ (layer0.add [primClash]).apertures.length
        ≠ (primKeys [primClash]).toFinset.card := by
  exact ⟨by decide, by decide, by decide, by decide⟩

/-- C3 witness: two `Add` calls supplying keys A, B, A (and one nil
aperture) leave exactly the entries A then B, in first-seen order. -/
theorem add_dedups_apertures_w :
    ([[primA, primB], [primA, primNil]].foldl Layer.add layer0).apertures.map
        Aperture.ident
      = ["A", "B"] :=
  ((add_dedups_apertures layer0 [[primA, primB], [primA, primNil]] rfl rfl
      (by decide)).1).trans (by decide)

end GoGerber
